import Mathlib

/-!
Shallow embedding of the O-1A visa assessment client
(`o1a-visa-assessment`): the result renderer (`assessment-result.tsx`),
the upload form state machine (`upload-form.tsx`, `handleFileChange` /
`handleSubmit`), and the simulated-progress notification
(`processing-notification.tsx`).

Numbers that are JavaScript `number`s in the source are modelled as `ℚ`
(all arithmetic the program performs on them — parsing decimal integers,
adding, halving, comparing — is exact in ℚ for the magnitudes involved).
React `useState` cells become fields of explicit state records, and the
event-driven updates become step functions folded over event lists.
-/

namespace O1Visa

/-! ### Approval-chance percentage (`assessment-result.tsx`, `getApprovalPercentage`)

The source matches the free-text approval chance against the regular
expression `(\d+)-(\d+)%` and, when it matches, returns the exact mean of
the two captured integers; otherwise it falls back on substring tests for
"High" / "Medium" / "Low" and finally 50.
-/

/-- Decimal value of a digit run, as produced by `Number.parseInt` on a
string of digits. -/
def parseNatDigits (l : List Char) : Nat :=
  l.foldl (fun n c => n * 10 + (c.toNat - '0'.toNat)) 0

/-- Try to match the regex `(\d+)-(\d+)%` anchored at the head of the
list.  Since every character of `\d+` is a digit, the greedy match with
backtracking succeeds exactly when a maximal nonempty digit run is
followed by `'-'`, another maximal nonempty digit run, and `'%'`. -/
def matchRangeAt (l : List Char) : Option (Nat × Nat) :=
  let d1 := l.takeWhile Char.isDigit
  let r1 := l.dropWhile Char.isDigit
  if d1.isEmpty then none
  else
    match r1 with
    | '-' :: r2 =>
      let d2 := r2.takeWhile Char.isDigit
      let r3 := r2.dropWhile Char.isDigit
      if d2.isEmpty then none
      else
        match r3 with
        | '%' :: _ => some (parseNatDigits d1, parseNatDigits d2)
        | _ => none
    | _ => none

/-- Unanchored search for `(\d+)-(\d+)%`: the JavaScript regex engine
tries each start position from the left and returns the first match. -/
def matchRange : List Char → Option (Nat × Nat)
  | [] => none
  | c :: rest =>
    match matchRangeAt (c :: rest) with
    | some r => some r
    | none => matchRange rest

/-- JavaScript `s.includes(sub)`: substring containment. -/
def jsIncludes (s sub : String) : Bool :=
  decide (sub.data <:+: s.data)

/-- `getApprovalPercentage` from `assessment-result.tsx` lines 108–119. -/
def getApprovalPercentage (s : String) : ℚ :=
  match matchRange s.data with
  | some (mn, mx) => ((mn : ℚ) + (mx : ℚ)) / 2
  | none =>
    if jsIncludes s "High" then 90
    else if jsIncludes s "Medium" then 60
    else if jsIncludes s "Low" then 30
    else 50

/-! ### Criteria sorting (`assessment-result.tsx` line 57)

`Object.entries(detailedAssessment).sort((a, b) => b[1].confidence -
a[1].confidence)`.  `Array.prototype.sort` is a stable sort; with this
comparator, element `x` may precede `y` exactly when
`y.confidence ≤ x.confidence`, i.e. the entries end up in descending
confidence order with ties kept in input order.  All stable sorts with
respect to this total preorder produce the same list, so we embed the
call as the (stable, structurally recursive) `List.insertionSort`. -/

/-- One entry of the `detailed_assessment` mapping: criterion name and
its `confidence`. -/
abbrev CriterionEntry : Type := String × ℚ

/-- The comparator-induced order: `x` may precede `y` when
`b[1].confidence - a[1].confidence ≤ 0`, i.e. descending confidence. -/
def confDesc (x y : CriterionEntry) : Prop :=
  y.2 ≤ x.2

instance : DecidableRel confDesc := fun x y =>
  inferInstanceAs (Decidable (y.2 ≤ x.2))

instance : IsTotal CriterionEntry confDesc :=
  ⟨fun a b => le_total b.2 a.2⟩

instance : IsTrans CriterionEntry confDesc :=
  ⟨fun _ _ _ hab hbc => le_trans hbc hab⟩

/-- `sortedCriteria` from `assessment-result.tsx` line 57. -/
def sortCriteria (l : List CriterionEntry) : List CriterionEntry :=
  l.insertionSort confDesc

/-! ### Field-type display (`assessment-result.tsx` line 48)

`assessment.field_type?.replace(/\b\w/g, (c) => c.toUpperCase()) ||
"Unknown"`.  `\w` is `[A-Za-z0-9_]` and `\b\w` matches a word character
not preceded by a word character, so the replacement uppercases exactly
those characters. -/

/-- JavaScript regex `\w`: ASCII letters, digits and underscore. -/
def isWordChar (c : Char) : Bool :=
  (65 ≤ c.toNat && c.toNat ≤ 90) || (97 ≤ c.toNat && c.toNat ≤ 122) ||
    (48 ≤ c.toNat && c.toNat ≤ 57) || c.toNat == 95

/-- Uppercase every word character not preceded by a word character
(`replace(/\b\w/g, toUpperCase)`); the flag records whether the previous
character was a word character. -/
def titleWords : List Char → Bool → List Char
  | [], _ => []
  | c :: rest, prevW =>
    (if isWordChar c && !prevW then c.toUpper else c) :: titleWords rest (isWordChar c)

/-- The `replace(/\b\w/g, ...)` call applied to a whole string. -/
def fieldTypeTitle (s : String) : String :=
  ⟨titleWords s.data false⟩

/-- JavaScript `a || d` on an optional string: `d` when `a` is absent or
empty (falsy), otherwise `a`. -/
def jsOrElse (o : Option String) (d : String) : String :=
  match o with
  | some s => if s = "" then d else s
  | none => d

/-- The displayed field type: title-cased source field, with `"Unknown"`
for a missing or empty source (`assessment-result.tsx` line 48). -/
def displayFieldType (o : Option String) : String :=
  jsOrElse (o.map fieldTypeTitle) "Unknown"

/-! ### The assessment payload and the renderer
(`assessment-result.tsx`, component `AssessmentResult`)

We model the fields of the payload that the embedded claims are about;
the remaining fields (recommendations, red flags, visa requirements, …)
are rendered but play no role in the claims. -/

/-- The `assessment` object of a successful payload (fields relevant to
the claims). -/
structure Assessment where
  fieldType : Option String
  approvalChance : Option String
  detailedAssessment : List CriterionEntry
deriving DecidableEq

/-- The raw API payload handed to `AssessmentResult`. -/
structure Payload where
  status : Option String
  message : Option String
  assessment : Assessment
deriving DecidableEq

/-- Default failure description shown when the payload carries no
message (`assessment-result.tsx` line 36). -/
def defaultFailMsg : String := "Unable to process the CV file"

/-- What the component renders: a failure card with a message, or the
success view with the derived display values and the sorted criteria
list. -/
inductive Rendered where
  | failure (msg : String)
  | success (fieldTypeDisp : String) (approvalPct : ℚ) (criteria : List CriterionEntry)
deriving DecidableEq

/-- `AssessmentResult({result})`: `!result || result.status !== "success"`
renders the failure card with `result?.message || "Unable to process the
CV file"`; otherwise the success view is built from the assessment. -/
def renderResult (result : Option Payload) : Rendered :=
  match result with
  | none => .failure defaultFailMsg
  | some r =>
    if r.status = some "success" then
      .success (displayFieldType r.assessment.fieldType)
        (getApprovalPercentage (jsOrElse r.assessment.approvalChance "Unknown"))
        (sortCriteria r.assessment.detailedAssessment)
    else
      .failure (jsOrElse r.message defaultFailMsg)

/-- The criteria entries a rendering shows (the failure card shows
none). -/
def renderedCriteria : Rendered → List CriterionEntry
  | .failure _ => []
  | .success _ _ cs => cs

/-! ### Upload form state machine (`upload-form.tsx`)

State cells of `UploadForm`: `file`, `error`, `result`, `isLoading`
(`apiUrl` plays no role in the claims).  We additionally record the list
of in-flight requests (`pending`, by submitted file name) so that
"issues a network call" is observable in the model. -/

/-- The `useState` cells of `UploadForm`, plus the in-flight request
list. -/
structure AppState where
  file : Option String
  error : Option String
  result : Option Payload
  isLoading : Bool
  pending : List String
deriving DecidableEq

/-- Validation error set by `handleFileChange` for a bad extension. -/
def unsupportedMsg : String :=
  "Unsupported file format. Please upload a PDF, DOCX, or TXT file."

/-- Error set by `handleSubmit` when no file is selected. -/
def noFileMsg : String := "Please select a file to upload"

/-- The segment after the last `'.'` of the name (the whole name when it
has no dot), as computed by `name.split(".").pop()`. -/
def lastSeg (l : List Char) : List Char :=
  l.foldl (fun acc c => if c = '.' then [] else acc ++ [c]) []

/-- `selectedFile.name.split(".").pop()?.toLowerCase()`. -/
def fileExt (name : String) : List Char :=
  (lastSeg name.data).map Char.toLower

/-- The extension check of `handleFileChange`:
`["pdf", "docx", "txt"].includes(fileExt)` (a missing/empty extension is
falsy and rejected by the same branch). -/
def acceptedExt (name : String) : Bool :=
  ["pdf".data, "docx".data, "txt".data].contains (fileExt name)

/-- `handleFileChange` (`upload-form.tsx` lines 24–39) applied to a
candidate file name: on rejection it sets the validation error and
clears the file, returning before any network call; on acceptance it
stores the file, clears the error and clears the previous result. -/
def handleFileChange (s : AppState) (name : String) : AppState :=
  if acceptedExt name then
    { s with file := some name, error := none, result := none }
  else
    { s with error := some unsupportedMsg, file := none }

/-- The synchronous prefix of `handleSubmit` (`upload-form.tsx` lines
41–60): with no file it only sets an error; otherwise it sets
`isLoading`, clears error and result, and issues the request (observable
as a new `pending` entry). -/
def handleSubmitStart (s : AppState) : AppState :=
  match s.file with
  | none => { s with error := some noFileMsg }
  | some f =>
    { s with isLoading := true, error := none, result := none,
             pending := s.pending ++ [f] }

/-- User-visible events of the upload form: selecting a candidate file,
pressing the submit control, and an in-flight request completing
successfully (with a parsed payload) or failing. -/
inductive AEvent where
  | select (name : String)
  | submit
  | respond (d : Payload)
  | respondErr (msg : String)

/-- One UI event step.  The submit control is `disabled={isLoading}`
(`upload-form.tsx` line 120), so a submit event while a request is in
flight does nothing; the completion of a request runs the rest of
`handleSubmit`: `setResult(data)` (unconditionally — there is no check
that the selected file still matches) resp. `setError(...)`, and
`setIsLoading(false)` in the `finally` block. -/
def appStep (s : AppState) : AEvent → AppState
  | .select n => handleFileChange s n
  | .submit => if s.isLoading then s else handleSubmitStart s
  | .respond d =>
    match s.pending with
    | [] => s
    | _ :: rest => { s with result := some d, isLoading := false, pending := rest }
  | .respondErr m =>
    match s.pending with
    | [] => s
    | _ :: rest => { s with error := some m, isLoading := false, pending := rest }

/-- Initial `UploadForm` state. -/
def initApp : AppState :=
  { file := none, error := none, result := none, isLoading := false, pending := [] }

/-- The form state after a sequence of UI events. -/
def runApp (evs : List AEvent) : AppState :=
  evs.foldl appStep initApp

/-! ### Processing notification (`processing-notification.tsx`)

`progress` advances by `(500 / 120000) * 100` per 500 ms tick while
`isVisible`, clamped at 100; when `isVisible` turns false both cells
reset to 0.  A second effect raises `stage` to 2 when `progress > 75`,
else to 1 when `progress > 30`, and otherwise leaves it unchanged. -/

/-- Per-tick increment `(interval / totalDuration) * 100` with
`interval = 500` ms and `totalDuration = 120000` ms. -/
def tickIncrement : ℚ := 500 / 120000 * 100

/-- The `useState` cells of `ProcessingNotification`, plus the
`isVisible` prop driving the timer. -/
structure ProgState where
  active : Bool
  progress : ℚ
  stage : Nat
deriving DecidableEq

/-- Events of the notification: the `isVisible` prop changing, and one
firing of the 500 ms interval (which only runs while visible). -/
inductive PEvent where
  | setVisible (b : Bool)
  | tick

/-- The stage-update effect (`processing-notification.tsx` lines 40–46):
run after each progress change. -/
def stageUpdate (progress : ℚ) (stage : Nat) : Nat :=
  if progress > 75 then 2
  else if progress > 30 then 1
  else stage

/-- One step of the notification: deactivation resets both cells to 0;
a tick (only effective while active) sets
`progress := min (progress + increment) 100` and then runs the stage
effect. -/
def pstep (s : ProgState) : PEvent → ProgState
  | .setVisible b =>
    if b then { s with active := true }
    else { active := false, progress := 0, stage := 0 }
  | .tick =>
    if s.active then
      let p := min (s.progress + tickIncrement) 100
      { s with progress := p, stage := stageUpdate p s.stage }
    else s

/-- Initial state: not visible, `progress = 0`, `stage = 0`. -/
def initProg : ProgState :=
  { active := false, progress := 0, stage := 0 }

/-- Notification state after a sequence of events. -/
def runProg (evs : List PEvent) : ProgState :=
  evs.foldl pstep initProg

/-- Stage as a pure function of the progress value, with thresholds at
30 and 75 (0 = EXTRACTING, 1 = ANALYZING, 2 = FINALIZING). -/
def stageOf (p : ℚ) : Nat :=
  if p > 75 then 2 else if p > 30 then 1 else 0

/-- The three-element `stages` array of `ProcessingNotification`
(display texts; the icons are components carrying no data). -/
def stagesList : List String :=
  ["Extracting information from your CV...",
   "Analyzing against O-1A criteria...",
   "Finalizing assessment..."]

/-! ## Invariants of the processing notification -/

/-- Reachability invariant of `ProcessingNotification`: the progress
value stays in `[0, 100]`, the stage always equals the threshold
function of the progress, and while hidden the progress is 0. -/
def ProgInv (s : ProgState) : Prop :=
  0 ≤ s.progress ∧ s.progress ≤ 100 ∧ s.stage = stageOf s.progress ∧
    (s.active = false → s.progress = 0)

theorem tickIncrement_pos : 0 < tickIncrement := by
  norm_num [tickIncrement]

theorem stageUpdate_stageOf {p q : ℚ} (h : p ≤ q) :
    stageUpdate q (stageOf p) = stageOf q := by
  simp only [stageUpdate, stageOf]
  split_ifs <;> first | rfl | (exfalso; linarith)

theorem stageOf_mono {p q : ℚ} (h : p ≤ q) : stageOf p ≤ stageOf q := by
  simp only [stageOf]
  split_ifs <;> first | omega | (exfalso; linarith)

theorem stageOf_le_two (p : ℚ) : stageOf p ≤ 2 := by
  simp only [stageOf]
  split_ifs <;> omega

theorem pstep_inv {s : ProgState} (h : ProgInv s) (e : PEvent) :
    ProgInv (pstep s e) := by
  obtain ⟨h0, h100, hst, hin⟩ := h
  cases e with
  | setVisible b =>
    cases b with
    | false =>
      refine ⟨by norm_num [pstep], by norm_num [pstep], ?_, fun _ => by norm_num [pstep]⟩
      norm_num [pstep, stageOf]
    | true =>
      exact ⟨h0, h100, hst, by simp [pstep]⟩
  | tick =>
    by_cases ha : s.active = true
    · have hmono : s.progress ≤ min (s.progress + tickIncrement) 100 :=
        le_min (by linarith [tickIncrement_pos]) h100
      refine ⟨?_, ?_, ?_, ?_⟩ <;> simp only [pstep, ha, if_true]
      · exact le_trans h0 hmono
      · exact min_le_right _ _
      · rw [hst]
        exact stageUpdate_stageOf (le_trans hmono (le_refl _))
      · intro hcontra
        simp [ha] at hcontra
    · have ha' : s.active = false := by simpa using ha
      simp only [pstep, ha', if_false]
      exact ⟨h0, h100, hst, hin⟩

theorem foldlProgInv :
    ∀ (evs : List PEvent) (s : ProgState), ProgInv s → ProgInv (evs.foldl pstep s)
  | [], _, h => h
  | e :: evs, _, h => foldlProgInv evs _ (pstep_inv h e)

theorem runProg_inv (evs : List PEvent) : ProgInv (runProg evs) :=
  foldlProgInv evs initProg
    ⟨le_refl 0, by norm_num [initProg], by norm_num [initProg, stageOf], fun _ => rfl⟩

theorem runProg_concat (evs : List PEvent) (e : PEvent) :
    runProg (evs ++ [e]) = pstep (runProg evs) e := by
  simp [runProg]

theorem pstep_tick_mono {s : ProgState} (h : ProgInv s) :
    s.progress ≤ (pstep s PEvent.tick).progress := by
  by_cases ha : s.active = true
  · simp only [pstep, ha, if_true]
    exact le_min (by linarith [tickIncrement_pos]) h.2.1
  · have ha' : s.active = false := by simpa using ha
    simp [pstep, ha']

/-- C5: in every reachable state of the processing notification the
simulated progress value lies in `[0, 100]` (clamped even if ticks keep
arriving past the 120-second target), a tick never decreases it, and
whenever the processing flag is off — hence at the start of every new
processing episode — the progress value is 0. -/
theorem progress_thm (evs : List PEvent) :
    0 ≤ (runProg evs).progress ∧ (runProg evs).progress ≤ 100 ∧
    (runProg evs).progress ≤ (runProg (evs ++ [PEvent.tick])).progress ∧
    ((runProg evs).active = false →
      (runProg (evs ++ [PEvent.setVisible true])).progress = 0) := by
  have h := runProg_inv evs
  refine ⟨h.1, h.2.1, ?_, ?_⟩
  · rw [runProg_concat]
    exact pstep_tick_mono h
  · intro ha
    rw [runProg_concat]
    have hz := h.2.2.2 ha
    simp [pstep, hz]

/-- Witness for C5 at the empty trace: after no events the progress is
in range, a tick does not decrease it, and turning the notification
visible starts the episode at progress 0. -/
theorem progress_witness :
    0 ≤ (runProg []).progress ∧
    (runProg []).progress ≤ (runProg [PEvent.tick]).progress ∧
    (runProg [PEvent.setVisible true]).progress = 0 := by
  have h := progress_thm []
  exact ⟨h.1, h.2.2.1, h.2.2.2 rfl⟩

/-- C6: in every reachable state the stage index is the pure threshold
function of the progress value (`stageOf`, thresholds 30 and 75, with
0 = EXTRACTING, 1 = ANALYZING, 2 = FINALIZING); at progress 30 the stage
is still EXTRACTING, at 31 ANALYZING, at 75 still ANALYZING, at 76
FINALIZING; and a tick never regresses the stage. -/
theorem stage_thm (evs : List PEvent) :
    (runProg evs).stage = stageOf (runProg evs).progress ∧
    stageOf 30 = 0 ∧ stageOf 31 = 1 ∧ stageOf 75 = 1 ∧ stageOf 76 = 2 ∧
    (runProg evs).stage ≤ (runProg (evs ++ [PEvent.tick])).stage := by
  have h := runProg_inv evs
  have h' := runProg_inv (evs ++ [PEvent.tick])
  have hmono : (runProg evs).progress ≤ (runProg (evs ++ [PEvent.tick])).progress := by
    rw [runProg_concat]
    exact pstep_tick_mono h
  refine ⟨h.2.2.1, by norm_num [stageOf], by norm_num [stageOf],
    by norm_num [stageOf], by norm_num [stageOf], ?_⟩
  rw [h.2.2.1, h'.2.2.1]
  exact stageOf_mono hmono

/-- C10: in every reachable state of the processing notification the
stage index is strictly below the length of the three-element `stages`
array, so `stages[stage]` (the current icon and text) never reads out of
bounds. -/
theorem stageIndex_thm (evs : List PEvent) :
    (runProg evs).stage < stagesList.length ∧ stagesList.length = 3 := by
  have h := runProg_inv evs
  constructor
  · rw [h.2.2.1]
    have := stageOf_le_two (runProg evs).progress
    simp only [stagesList, List.length_cons, List.length_nil]
    omega
  · rfl

/-! ## Invariants of the upload form -/

/-- Reachability invariant of `UploadForm` under UI events: at most one
request is in flight, and none is in flight unless `isLoading`. -/
def AppInv (s : AppState) : Prop :=
  s.pending.length ≤ 1 ∧ (s.isLoading = false → s.pending = [])

theorem appStep_inv {s : AppState} (h : AppInv s) (e : AEvent) :
    AppInv (appStep s e) := by
  obtain ⟨h1, h2⟩ := h
  cases e with
  | select n =>
    simp only [appStep, handleFileChange]
    split_ifs <;> exact ⟨h1, h2⟩
  | submit =>
    by_cases hl : s.isLoading = true
    · simpa [appStep, hl] using ⟨h1, h2⟩
    · have hl' : s.isLoading = false := by simpa using hl
      have hp := h2 hl'
      simp only [appStep, hl', Bool.false_eq_true, if_false, handleSubmitStart]
      rcases hf : s.file with _ | f
      · simp only [hf]
        exact ⟨h1, fun _ => hp⟩
      · simp only [hf]
        refine ⟨by simp [hp], ?_⟩
        intro hcontra
        simp at hcontra
  | respond d =>
    rcases hp : s.pending with _ | ⟨x, rest⟩
    · simpa [appStep, hp] using ⟨h1, h2⟩
    · have hr : rest = [] := by
        rw [hp] at h1
        simp only [List.length_cons] at h1
        exact List.length_eq_zero.mp (by omega)
      subst hr
      simp only [appStep, hp]
      exact ⟨by simp, fun _ => rfl⟩
  | respondErr m =>
    rcases hp : s.pending with _ | ⟨x, rest⟩
    · simpa [appStep, hp] using ⟨h1, h2⟩
    · have hr : rest = [] := by
        rw [hp] at h1
        simp only [List.length_cons] at h1
        exact List.length_eq_zero.mp (by omega)
      subst hr
      simp only [appStep, hp]
      exact ⟨by simp, fun _ => rfl⟩

theorem foldlAppInv :
    ∀ (evs : List AEvent) (s : AppState), AppInv s → AppInv (evs.foldl appStep s)
  | [], _, h => h
  | e :: evs, _, h => foldlAppInv evs _ (appStep_inv h e)

theorem runApp_inv (evs : List AEvent) : AppInv (runApp evs) :=
  foldlAppInv evs initApp ⟨by simp [initApp], fun _ => rfl⟩

/-- A successful payload with no content, used as a concrete prior
result in counterexamples. -/
def samplePayload : Payload :=
  ⟨some "success", none, ⟨none, none, []⟩⟩

/-- A form state in which an earlier submission has already produced a
displayed result and nothing is in flight. -/
def stateWithResult : AppState :=
  { file := some "old.pdf", error := none, result := some samplePayload,
    isLoading := false, pending := [] }

/-- C3 counterexample: selecting `cv.exe` in a state that displays a
prior assessment result rejects the file, clears the file and surfaces
the validation error — but the prior result is NOT cleared, contrary to
the claim's fail-clear policy (`setResult(null)` only runs on the accept
branch of `handleFileChange`). -/
theorem fileReject_counterexample :
    (handleFileChange stateWithResult "cv.exe").result = some samplePayload ∧
    (handleFileChange stateWithResult "cv.exe").result ≠ none ∧
    (handleFileChange stateWithResult "cv.exe").file = none ∧
    (handleFileChange stateWithResult "cv.exe").error = some unsupportedMsg := by
  have h1 : (handleFileChange stateWithResult "cv.exe").result = some samplePayload := rfl
  exact ⟨h1, by rw [h1]; exact Option.some_ne_none _, rfl, rfl⟩

/-- C3 (amended): a candidate file whose extension is not pdf/docx/txt
is rejected before any network call (the in-flight request list is
untouched), a validation error is surfaced and the selected file is
cleared — but the prior assessment result is left in place; the result
is only cleared when an accepted file is selected. -/
theorem fileReject_amended (s : AppState) (name : String)
    (h : acceptedExt name = false) :
    (handleFileChange s name).error = some unsupportedMsg ∧
    (handleFileChange s name).file = none ∧
    (handleFileChange s name).result = s.result ∧
    (handleFileChange s name).pending = s.pending ∧
    (handleFileChange s name).isLoading = s.isLoading := by
  simp [handleFileChange, h]

/-- Witness for C3 (amended) at the concrete rejected file `cv.exe`. -/
theorem fileReject_witness :
    (handleFileChange stateWithResult "cv.exe").error = some unsupportedMsg ∧
    (handleFileChange stateWithResult "cv.exe").result = stateWithResult.result := by
  have h := fileReject_amended stateWithResult "cv.exe" rfl
  exact ⟨h.1, h.2.2.1⟩

/-- C4 counterexample: a request is issued for `a.pdf`, the user then
selects `b.pdf`, and the response for `a.pdf` arrives — the response is
applied as the displayed result even though the selected file has
changed (there is no stale-response guard in `handleSubmit`). -/
theorem staleResponse_counterexample :
    (runApp [AEvent.select "a.pdf", AEvent.submit, AEvent.select "b.pdf",
        AEvent.respond samplePayload]).result = some samplePayload ∧
    (runApp [AEvent.select "a.pdf", AEvent.submit, AEvent.select "b.pdf",
        AEvent.respond samplePayload]).file = some "b.pdf" := ⟨rfl, rfl⟩

/-- C4 (amended): when a response arrives for an in-flight request it is
always applied to the UI as the displayed result — regardless of the
currently selected file, so a response for an old file is NOT discarded
after the selection changes (the hazard is only masked by the new
selection having cleared the previous result). -/
theorem staleResponse_amended (s : AppState) (d : Payload)
    (h : s.pending ≠ []) :
    (appStep s (AEvent.respond d)).result = some d := by
  rcases hp : s.pending with _ | ⟨x, rest⟩
  · exact absurd hp h
  · simp [appStep, hp]

/-- A form state in which the selected file is `b.pdf` while the single
in-flight request was issued for `a.pdf`. -/
def mismatchState : AppState :=
  { file := some "b.pdf", error := none, result := none,
    isLoading := true, pending := ["a.pdf"] }

/-- Witness for C4 (amended): a response arriving while the selected
file is `b.pdf` but the in-flight request was for `a.pdf` is applied. -/
theorem staleResponse_witness :
    (appStep mismatchState (AEvent.respond samplePayload)).result = some samplePayload :=
  staleResponse_amended _ _ (by simp [mismatchState])

/-- A form state with one submission in flight. -/
def inFlightState : AppState :=
  { file := some "a.pdf", error := none, result := none,
    isLoading := true, pending := ["a.pdf"] }

/-- C9 counterexample: `handleSubmit` performs no in-flight check, so a
direct call while a request is in flight issues a second request (the
in-flight list grows to two) and changes state — it is neither a no-op
nor rejected. -/
theorem concurrentSubmit_counterexample :
    (handleSubmitStart inFlightState).pending = ["a.pdf", "a.pdf"] ∧
    handleSubmitStart inFlightState ≠ inFlightState := by
  refine ⟨rfl, fun hcontra => ?_⟩
  have hp : (handleSubmitStart inFlightState).pending = inFlightState.pending := by
    rw [hcontra]
  rw [show (handleSubmitStart inFlightState).pending = ["a.pdf", "a.pdf"] from rfl] at hp
  simp [inFlightState] at hp

/-- C9 (amended): concurrent submissions are prevented only by the UI —
the submit control is disabled while `isLoading`, so a submit event
during an in-flight request is a no-op, and under UI events at most one
request is ever in flight; `handleSubmit` itself checks nothing (see the
counterexample). -/
theorem concurrentSubmit_amended :
    (∀ s : AppState, s.isLoading = true → appStep s AEvent.submit = s) ∧
    (∀ evs : List AEvent, (runApp evs).pending.length ≤ 1) := by
  constructor
  · intro s hl
    simp [appStep, hl]
  · intro evs
    exact (runApp_inv evs).1

/-- Witness for C9 (amended) at a concrete in-flight state and a
concrete double-submit trace. -/
theorem concurrentSubmit_witness :
    appStep inFlightState AEvent.submit = inFlightState ∧
    (runApp [AEvent.select "a.pdf", AEvent.submit, AEvent.submit]).pending.length ≤ 1 :=
  ⟨concurrentSubmit_amended.1 inFlightState rfl, concurrentSubmit_amended.2 _⟩

/-! ## The approval-chance percentage (C1) -/

theorem jsIncludes_iff (s sub : String) :
    jsIncludes s sub = true ↔ sub.data <:+: s.data := by
  simp [jsIncludes]

/-- C1 counterexample: on `"60-81%"` the code returns the exact mean
`141/2 = 70.5`, which is not an integer (neither 70 nor 71 — no rounding
takes place), and on `"300-500%"` it returns 400, outside 0–100. -/
theorem approval_counterexample :
    getApprovalPercentage "60-81%" = 141 / 2 ∧
    getApprovalPercentage "60-81%" ≠ 70 ∧
    getApprovalPercentage "60-81%" ≠ 71 ∧
    100 < getApprovalPercentage "300-500%" := by
  have h1 : matchRange "60-81%".data = some (60, 81) := by decide
  have h2 : matchRange "300-500%".data = some (300, 500) := by decide
  refine ⟨?_, ?_, ?_, ?_⟩ <;>
    simp only [getApprovalPercentage, h1, h2] <;> norm_num

/-- C1 (amended): when the free text contains a `<low>-<high>%` range
the result is the exact arithmetic mean `(low + high) / 2` — an integer
or half-integer that is not rounded and may exceed 100; otherwise, in
priority order, containing `"High"` gives 90, else `"Medium"` 60, else
`"Low"` 30, else 50, and in this branch the result lies in 0–100; the
result is always nonnegative. -/
theorem approval_amended (s : String) :
    0 ≤ getApprovalPercentage s ∧
    (∀ mn mx, matchRange s.data = some (mn, mx) →
      getApprovalPercentage s = ((mn : ℚ) + (mx : ℚ)) / 2) ∧
    (matchRange s.data = none →
      ("High".data <:+: s.data → getApprovalPercentage s = 90) ∧
      (¬ "High".data <:+: s.data → "Medium".data <:+: s.data →
        getApprovalPercentage s = 60) ∧
      (¬ "High".data <:+: s.data → ¬ "Medium".data <:+: s.data →
        "Low".data <:+: s.data → getApprovalPercentage s = 30) ∧
      (¬ "High".data <:+: s.data → ¬ "Medium".data <:+: s.data →
        ¬ "Low".data <:+: s.data → getApprovalPercentage s = 50) ∧
      getApprovalPercentage s ≤ 100) := by
  rcases h : matchRange s.data with _ | ⟨mn, mx⟩
  · refine ⟨?_, ?_, ?_⟩
    · simp only [getApprovalPercentage, h]
      split_ifs <;> norm_num
    · intro mn mx h'
      exact Option.noConfusion h'
    · intro _
      refine ⟨?_, ?_, ?_, ?_, ?_⟩
      · intro hH
        simp [getApprovalPercentage, h, jsIncludes, hH]
      · intro hH hM
        simp [getApprovalPercentage, h, jsIncludes, hH, hM]
      · intro hH hM hL
        simp [getApprovalPercentage, h, jsIncludes, hH, hM, hL]
      · intro hH hM hL
        simp [getApprovalPercentage, h, jsIncludes, hH, hM, hL]
      · simp only [getApprovalPercentage, h]
        split_ifs <;> norm_num
  · refine ⟨?_, ?_, ?_⟩
    · simp only [getApprovalPercentage, h]
      positivity
    · intro mn' mx' h'
      simp only [Option.some.injEq, Prod.mk.injEq] at h'
      obtain ⟨rfl, rfl⟩ := h'
      simp [getApprovalPercentage, h]
    · intro h'
      exact Option.noConfusion h'

/-- Witness for C1 (amended) on the spec's reference inputs:
`"60-80%"` gives 70, `"High chance"` 90, `"Medium"` 60, `"Low"` 30 and
`"unparseable text"` 50. -/
theorem approval_witness :
    getApprovalPercentage "60-80%" = 70 ∧
    getApprovalPercentage "High chance" = 90 ∧
    getApprovalPercentage "Medium" = 60 ∧
    getApprovalPercentage "Low" = 30 ∧
    getApprovalPercentage "unparseable text" = 50 := by
  refine ⟨?_, ?_, ?_, ?_, ?_⟩
  · have h := (approval_amended "60-80%").2.1 60 80 (by decide)
    rw [h]
    norm_num
  · exact (((approval_amended "High chance").2.2 (by decide)).1 (by decide))
  · exact (((approval_amended "Medium").2.2 (by decide)).2.1 (by decide) (by decide))
  · exact (((approval_amended "Low").2.2 (by decide)).2.2.1
      (by decide) (by decide) (by decide))
  · exact (((approval_amended "unparseable text").2.2 (by decide)).2.2.2.1
      (by decide) (by decide) (by decide))

/-! ## The failure view (C7) -/

/-- C7 counterexample: a failure payload with no message renders the
failure card with the code's default text `"Unable to process the CV
file"`, not the claimed default `"processing failed."`. -/
theorem failureView_counterexample :
    renderResult (some ⟨some "failure", none, ⟨none, none, []⟩⟩) =
      Rendered.failure "Unable to process the CV file" ∧
    "Unable to process the CV file" ≠ "processing failed." :=
  ⟨rfl, by decide⟩

/-- C7 (amended): every payload whose status is not `"success"` (and a
missing payload) renders the failure view and no criteria; the view
carries the payload's message when one is present and non-empty, and
otherwise the default text `"Unable to process the CV file"`. -/
theorem failureView_amended (r : Payload) (h : r.status ≠ some "success") :
    renderResult (some r) = Rendered.failure (jsOrElse r.message defaultFailMsg) ∧
    renderedCriteria (renderResult (some r)) = [] ∧
    (∀ m, r.message = some m → m ≠ "" →
      renderResult (some r) = Rendered.failure m) ∧
    renderResult none = Rendered.failure defaultFailMsg := by
  have h1 : renderResult (some r) = Rendered.failure (jsOrElse r.message defaultFailMsg) := by
    simp [renderResult, h]
  refine ⟨h1, by rw [h1]; rfl, ?_, rfl⟩
  intro m hm hne
  rw [h1, hm]
  simp [jsOrElse, hne]

/-- Witness for C7 (amended) on the spec's scenario: status
`"failure"` with message `"parse error"` renders the failure view with
that message and no criteria. -/
theorem failureView_witness :
    renderResult (some ⟨some "failure", some "parse error", ⟨none, none, []⟩⟩) =
      Rendered.failure "parse error" ∧
    renderedCriteria (renderResult
      (some ⟨some "failure", some "parse error", ⟨none, none, []⟩⟩)) = [] := by
  have h := failureView_amended ⟨some "failure", some "parse error", ⟨none, none, []⟩⟩
    (by decide)
  exact ⟨h.2.2.1 "parse error" rfl (by decide), h.2.1⟩

/-! ## Field-type display formatting (C8) -/

theorem isWordChar_lt {c : Char} (h : isWordChar c = true) : c.toNat < 123 := by
  simp only [isWordChar, Bool.or_eq_true, Bool.and_eq_true, decide_eq_true_eq,
    beq_iff_eq] at h
  rcases h with ((⟨_, h⟩ | ⟨_, h⟩) | ⟨_, h⟩) | h <;> omega

theorem toUpper_toLower_bounded :
    ∀ n : Nat, n < 123 → ((Char.ofNat n).toUpper).toLower = (Char.ofNat n).toLower := by
  decide

theorem toUpper_toLower_of_word {c : Char} (h : isWordChar c = true) :
    c.toUpper.toLower = c.toLower := by
  have hb := isWordChar_lt h
  have hc := toUpper_toLower_bounded c.toNat hb
  rwa [Char.ofNat_toNat] at hc

theorem titleWords_toLower :
    ∀ (l : List Char) (b : Bool),
      (titleWords l b).map Char.toLower = l.map Char.toLower
  | [], _ => rfl
  | c :: rest, b => by
    simp only [titleWords, List.map_cons]
    rw [titleWords_toLower rest]
    rcases hcond : (isWordChar c && !b) with _ | _
    · simp [hcond]
    · have hw : isWordChar c = true := by
        have hcond' := hcond
        simp only [Bool.and_eq_true] at hcond'
        exact hcond'.1
      simp [hcond, toUpper_toLower_of_word hw]

theorem titleWords_length :
    ∀ (l : List Char) (b : Bool), (titleWords l b).length = l.length
  | [], _ => rfl
  | _ :: rest, b => by
    simp [titleWords, titleWords_length rest]

/-- C8 counterexample: the code's `\b\w` replacement treats the
underscore as a word character, not a delimiter, so
`"stem_researcher"` is displayed as `"Stem_researcher"` — not the
claimed `"Stem Researcher"` (the second word is not capitalized and the
underscore is not replaced). -/
theorem titleCase_counterexample :
    displayFieldType (some "stem_researcher") = "Stem_researcher" ∧
    "Stem_researcher" ≠ "Stem Researcher" :=
  ⟨rfl, by decide⟩

/-- C8 (amended): the displayed field type uppercases exactly the word
characters (`[A-Za-z0-9_]`, underscore included, so underscore-joined
words after the first are NOT capitalized) that are not preceded by a
word character: whitespace-delimited words are title-cased
(`"stem researcher"` → `"Stem Researcher"`) but
`"stem_researcher"` → `"Stem_researcher"`; the transformation never
mutates the identifier beyond letter case (lowercasing the display
recovers the lowercased source, and the length is unchanged); a missing
or empty source displays `"Unknown"`. -/
theorem titleCase_amended (s : String) :
    (fieldTypeTitle s).data.map Char.toLower = s.data.map Char.toLower ∧
    (fieldTypeTitle s).length = s.length ∧
    fieldTypeTitle "stem researcher" = "Stem Researcher" ∧
    fieldTypeTitle "stem_researcher" = "Stem_researcher" ∧
    displayFieldType none = "Unknown" ∧
    displayFieldType (some "") = "Unknown" := by
  refine ⟨titleWords_toLower s.data false, ?_, rfl, rfl, rfl, rfl⟩
  simp only [String.length, fieldTypeTitle]
  exact titleWords_length s.data false

/-! ## Criteria ordering (C2) -/

/-- C2: for every successful payload the rendered criteria list is the
stable descending-confidence sort of the `detailed_assessment` entries:
it is sorted by descending confidence, it is a permutation of the input,
confidences `[0.3, 0.9, 0.6]` come out in order `[0.9, 0.6, 0.3]`, and
entries with tied confidences keep their input order (stability, hence
determinism for a given input). -/
theorem sortedCriteria_thm (r : Payload) (hs : r.status = some "success") :
    renderedCriteria (renderResult (some r)) =
      sortCriteria r.assessment.detailedAssessment ∧
    (sortCriteria r.assessment.detailedAssessment).Sorted confDesc ∧
    (sortCriteria r.assessment.detailedAssessment).Perm
      r.assessment.detailedAssessment ∧
    sortCriteria [("a", 3/10), ("b", 9/10), ("c", 6/10)] =
      [("b", 9/10), ("c", 6/10), ("a", 3/10)] ∧
    (∀ (a b : CriterionEntry) (l : List CriterionEntry), a.2 = b.2 →
      List.Sublist [a, b] l → List.Sublist [a, b] (sortCriteria l)) := by
  refine ⟨by simp [renderResult, hs, renderedCriteria],
    List.sorted_insertionSort confDesc _,
    List.perm_insertionSort confDesc _,
    by norm_num [sortCriteria, List.insertionSort, List.orderedInsert, confDesc],
    fun a b l hab hsub =>
      List.pair_sublist_insertionSort (le_of_eq hab.symm) hsub⟩

/-- Witness for C2 at a concrete successful payload with a tie: the
tied entries `("x", 1/2)` and `("y", 1/2)` keep their input order in the
sorted output. -/
theorem sortedCriteria_witness :
    renderedCriteria (renderResult (some ⟨some "success", none,
      ⟨none, none, [("x", 1/2), ("y", 1/2), ("z", 1)]⟩⟩)) =
      sortCriteria [("x", 1/2), ("y", 1/2), ("z", 1)] ∧
    List.Sublist [(("x" : String), (1 : ℚ)/2), ("y", 1/2)]
      (sortCriteria [("x", 1/2), ("y", 1/2), ("z", 1)]) := by
  have h := sortedCriteria_thm ⟨some "success", none,
    ⟨none, none, [("x", 1/2), ("y", 1/2), ("z", 1)]⟩⟩ rfl
  exact ⟨h.1, h.2.2.2.2 ("x", 1/2) ("y", 1/2) _ rfl
    (List.Sublist.cons₂ _ (List.Sublist.cons₂ _ (List.nil_sublist _)))⟩

end O1Visa
